import Mathlib

/-!
Verification development for the shuffle spill I/O and buffer-encoding core
of gluten (cpp/core/shuffle/Utils.h).

The repository provides the header cpp/core/shuffle/Utils.h with the
declarations of MmapFileStream, the batch encoders and the size oracle; the
implementation file (Utils.cc) is not part of the sources available here, so
the behaviour of each operation is modelled from the specification's
algorithm descriptions, while the header fixes the type aliases, the
zero-initialised cursor fields and the constness of the prefetch size.

File bytes are modelled as `List Nat`, positions as `Nat` (the C++ fields are
int64_t holding byte positions inside a mapped file, which are always
non-negative and far below 2^63), requested read counts as `Int` (the C++
parameter is a signed int64_t that callers may in principle pass negative).
-/

namespace Gluten

/-- Page size used for page-aligned rounding of advise ranges (4 KiB, the
common value of sysconf page size). -/
def kPageSize : Nat := 4096

/-- Round a byte position up to the next page boundary. -/
def roundUpToPage (x : Nat) : Nat :=
  (x + kPageSize - 1) / kPageSize * kPageSize

/-- Round a byte position down to the previous page boundary. -/
def roundDownToPage (x : Nat) : Nat :=
  x / kPageSize * kPageSize

/-- Error kinds of the core, following the spec's error handling design:
I/O error, allocation error, codec error, unsupported-type error and
invalid-state error. -/
inductive GError where
  | invalidState
  | ioError
  | allocError
  | codecError
  | unsupportedType
deriving DecidableEq

/-- Modelled from the spec: state of MmapFileStream (Utils.h lines 75-106).
`data` stands for the mapped file content (the mapping covers the full file
extent), `prefetchSize` for the page-aligned const field `prefetchSize_`,
and `pos`, `posFetch`, `posRetain` for the cursor fields `pos_`, `posFetch_`,
`posRetain_`. The C++ stream also owns a file descriptor and the raw mapping
address; those are resources with no byte-level behaviour and are not
modelled. `isClosed` records whether Close has run. -/
structure MmapFileStream where
  data : List Nat
  prefetchSize : Nat
  pos : Nat
  posFetch : Nat
  posRetain : Nat
  isClosed : Bool
deriving DecidableEq

namespace MmapFileStream

/-- File size as seen by the stream (determined from file metadata at open). -/
def size (s : MmapFileStream) : Nat := s.data.length

/-- Modelled from the spec: `open(path, prefetchSize = 0)` (Utils.cc is not
in the sources). Opens the file, maps its full extent, rounds `prefetchSize`
up to the page size. The cursor fields start at 0, as the header's member
initialisers `pos_ = 0; posFetch_ = 0; posRetain_ = 0` show. The path/fd
level I/O failure modes of open are outside the byte-level model: a
successfully opened stream is represented directly. -/
def openStream (data : List Nat) (prefetchSize : Nat) : MmapFileStream :=
  ⟨data, roundUpToPage prefetchSize, 0, 0, 0, false⟩

/-- Modelled from the spec: `tell() → current pos; never fails`. -/
def tell (s : MmapFileStream) : Nat := s.pos

/-- Modelled from the spec: `isClosed()` reports whether close has run. -/
def closed (s : MmapFileStream) : Bool := s.isClosed

/-- Modelled from the spec: `close()` unmaps and closes the handle;
idempotent. Unmapping and closing the fd are resource effects with no
byte-level behaviour; the model records only the closed flag. -/
def close (s : MmapFileStream) : MmapFileStream :=
  { s with isClosed := true }

/-- Modelled from the spec: `actualReadSize(n) = max(0, min(n, size - pos))`
(Utils.h line 92 declares it). Returned as a `Nat`; `Int.toNat` realises the
`max 0` clamp. -/
def actualReadSize (s : MmapFileStream) (nbytes : Int) : Nat :=
  (min nbytes ((s.size : Int) - (s.pos : Int))).toNat

/-- Modelled from the spec: `willNeed(len)`: if `pos + len > posFetch`,
issue an advise (prefetch) call for `[posFetch, roundUpToPage(pos + len)]`
and set `posFetch` to that bound. The advise call itself is a best-effort
performance hint with no effect on delivered bytes and is not modelled; only
the `posFetch` bookkeeping is. The bound is capped at the file size, keeping
the documented invariant `posFetch ≤ size`. -/
def willNeed (s : MmapFileStream) (len : Nat) : MmapFileStream :=
  if s.posFetch < s.pos + len then
    { s with posFetch := min (roundUpToPage (s.pos + len)) s.size }
  else s

/-- Modelled from the spec: `advance(len)`: `pos += len`; once
`pos - posRetain` exceeds `prefetchSize`, advise the kernel to drop
`[posRetain, roundDownToPage(pos))` and set `posRetain` accordingly. The
release advise is again a hint without byte-level effect; only the cursor
bookkeeping is modelled. -/
def advance (s : MmapFileStream) (len : Nat) : MmapFileStream :=
  if s.prefetchSize < s.pos + len - s.posRetain then
    { s with pos := s.pos + len, posRetain := roundDownToPage (s.pos + len) }
  else
    { s with pos := s.pos + len }

/-- Modelled from the spec: `read(n)` (Utils.h lines 85-87): fails with an
invalid-state error on a closed stream; otherwise copies
`actualReadSize(n)` bytes starting at `pos`, triggers the prefetch
bookkeeping, advances the cursor, and returns the copied bytes (whose length
is the count the C++ call returns). -/
def read (s : MmapFileStream) (nbytes : Int) :
    Except GError (List Nat × MmapFileStream) :=
  if s.isClosed then
    .error .invalidState
  else
    let k := s.actualReadSize nbytes
    .ok ((s.data.drop s.pos).take k, (s.willNeed k).advance k)

/-- Sequential reading: perform the reads of `ns` in order, concatenating
the delivered bytes. A failed read stops the sequence. -/
def readMany (s : MmapFileStream) : List Int → List Nat × MmapFileStream
  | [] => ([], s)
  | n :: ns =>
    match s.read n with
    | .error _ => ([], s)
    | .ok (b, s') =>
      let r := s'.readMany ns
      (b ++ r.1, r.2)

end MmapFileStream

/-- Observable operations on a stream after open: a read with some requested
count, or a close. (Tell is pure and does not change the state.) -/
inductive Op where
  | read (nbytes : Int)
  | close
deriving DecidableEq

/-- Apply one operation to the stream state; a failing read leaves the state
unchanged. -/
def applyOp (s : MmapFileStream) (op : Op) : MmapFileStream :=
  match op with
  | .read n =>
    match s.read n with
    | .error _ => s
    | .ok (_, s') => s'
  | .close => s.close

/-- Apply a sequence of operations in order. -/
def applyOps (s : MmapFileStream) (ops : List Op) : MmapFileStream :=
  List.foldl applyOp s ops

/-- Cursor invariant of the read cursor: `posRetain ≤ pos ≤ posFetch ≤ size`
(the lower bound `0 ≤ posRetain` is inherent in the `Nat` representation and
restated explicitly in the invariant theorem). -/
def cursorInv (s : MmapFileStream) : Prop :=
  s.posRetain ≤ s.pos ∧ s.pos ≤ s.posFetch ∧ s.posFetch ≤ s.size

instance (s : MmapFileStream) : Decidable (cursorInv s) := by
  unfold cursorInv; infer_instance

/-- Size constant from the header: `kSizeOfBinaryArrayLengthBuffer =
sizeof(BinaryArrayLengthBufferType)` with
`using BinaryArrayLengthBufferType = uint32_t` (Utils.h lines 32, 35),
i.e. 4 bytes — the 32-bit length type of embedded per-field lengths. -/
def kSizeOfBinaryArrayLengthBuffer : Nat := 4

/-- Size constant from the header: `kSizeOfIpcOffsetBuffer =
sizeof(IpcOffsetBufferType)` with
`using IpcOffsetBufferType = arrow::LargeStringType::offset_type` (Utils.h
lines 33, 36); arrow's large-string offset type is int64_t, i.e. 8 bytes —
the 64-bit-class offset type. -/
def kSizeOfIpcOffsetBuffer : Nat := 8

/-- Consumed collaborator contract of a compression codec, as the spec's
external-interface section fixes it: `compress(src) → dst` (fallible) and
`maxCompressedLen(srcLen) → len`, an upper bound on the size `compress`
can produce for an input of that length. -/
structure Codec where
  compress : List Nat → Except GError (List Nat)
  maxCompressedLen : Nat → Nat
  compress_le : ∀ src out, compress src = Except.ok out →
    out.length ≤ maxCompressedLen src.length

/-- Apply a fallible function to every element, propagating the first
error; on success all results are returned in order. -/
def mapAll (f : α → Except GError β) : List α → Except GError (List β)
  | [] => .ok []
  | a :: as =>
    match f a, mapAll f as with
    | .ok b, .ok bs => .ok (b :: bs)
    | .error e, _ => .error e
    | .ok _, .error e => .error e

/-- Modelled from the spec: `getMaxCompressedBufferSize(buffers, codec)`
(declared Utils.h lines 50-52, implementation not in the sources) — an
upper bound on compressed output size for the given buffers under the
codec, the sum of the codec's worst case per buffer. -/
def getMaxCompressedBufferSize (buffers : List (List Nat)) (codec : Codec) :
    Nat :=
  (buffers.map (fun b => codec.maxCompressedLen b.length)).sum

/-- Modelled from the spec: the compression mode of the compressed path —
per-buffer compression versus whole-batch aggregation (the spec names the
two variants and leaves finer semantics open; utils/Compression.h is not in
the sources). -/
inductive CompressionMode where
  | buffer
  | rowvector
deriving DecidableEq

/-- Modelled from the spec: the buffer groups the compressed path works on
for a given mode: each buffer on its own in per-buffer mode, the whole
batch concatenated into a single group in whole-batch mode. -/
def groups : CompressionMode → List (List Nat) → List (List Nat)
  | .buffer, bufs => bufs
  | .rowvector, bufs => [bufs.flatten]

/-- One output column of the compressed path: the stored bytes plus the
recorded pair `(originalLength, compressedLength)`; `compressedLength =
originalLength` is the "stored verbatim" sentinel. -/
structure CompressedColumn where
  payload : List Nat
  originalLength : Nat
  compressedLength : Nat
deriving DecidableEq

/-- Output batch of the compressed path. -/
structure CompressedBatch where
  numRows : Nat
  columns : List CompressedColumn
deriving DecidableEq

/-- Modelled from the spec: treatment of one buffer group by
`makeCompressedRecordBatch`: at or above `bufferCompressThreshold` it is
compressed (into a destination sized via `getMaxCompressedBufferSize`,
which the codec contract guarantees is never overflowed) and
`(compressedLength, originalLength)` is recorded; below the threshold it
is stored verbatim with `compressedLength == originalLength`. The
threshold is the C++ int32_t `bufferCompressThreshold`, kept as `Int`. -/
def compressBuffer (codec : Codec) (thr : Int) (g : List Nat) :
    Except GError CompressedColumn :=
  if thr ≤ (g.length : Int) then
    match codec.compress g with
    | .ok out => .ok ⟨out, g.length, out.length⟩
    | .error e => .error e
  else
    .ok ⟨g, g.length, g.length⟩

/-- Modelled from the spec: `makeCompressedRecordBatch` (declared Utils.h
lines 54-62, implementation not in the sources): per buffer group, apply
the threshold policy and record the result columns; any codec failure
propagates and no batch is produced. The C++ signature's schema, memory
pool and `compressionTime` instrumentation are framing/accounting with no
effect on the recorded columns and are not modelled. -/
def makeCompressedRecordBatch (numRows : Nat) (buffers : List (List Nat))
    (codec : Codec) (bufferCompressThreshold : Int)
    (compressionMode : CompressionMode) : Except GError CompressedBatch :=
  match mapAll (compressBuffer codec bufferCompressThreshold)
      (groups compressionMode buffers) with
  | .ok cols => .ok ⟨numRows, cols⟩
  | .error e => .error e

/-- One large-binary column of the uncompressed path: a single flattened
value with its offset buffer (entries of the 64-bit-class
IpcOffsetBufferType). -/
structure LargeBinaryColumn where
  value : List Nat
  offsets : List Int
deriving DecidableEq

/-- Output batch of the uncompressed path. -/
structure UncompressedBatch where
  numRows : Nat
  columns : List LargeBinaryColumn
deriving DecidableEq

/-- Modelled from the spec: `makeUncompressedRecordBatch` (declared Utils.h
lines 65-69, implementation not in the sources; the header comments
"generate the new big one row several columns binary recordbatch"): one
physical batch holding a single logical row, one large-binary column per
input buffer, each column's offset buffer delimiting its single value.
Precondition per the spec: the buffer count matches the column count
implied by the schema (modelled by its column count), else an
invalid-state error. The `numRows` argument is carried in the serialized
header payload in the real layout and does not change the batch's single
physical row. -/
def makeUncompressedRecordBatch (_numRows : Nat) (buffers : List (List Nat))
    (schemaCols : Nat) : Except GError UncompressedBatch :=
  if buffers.length = schemaCols then
    .ok ⟨1, buffers.map (fun b => ⟨b, [0, (b.length : Int)]⟩)⟩
  else
    .error .invalidState

/-- A trivially valid codec (stores its input verbatim), used to exhibit
the encoder theorems at concrete inputs. -/
def identityCodec : Codec where
  compress src := .ok src
  maxCompressedLen n := n
  compress_le := by
    intro src out h
    cases h
    exact Nat.le_refl _

/-- Full validity of a compressed batch: one recorded column per buffer
group, and every column's recorded compressed length is exactly the length
of its stored payload. -/
def wellFormedCompressed (mode : CompressionMode) (bufs : List (List Nat))
    (batch : CompressedBatch) : Prop :=
  batch.columns.length = (groups mode bufs).length ∧
  ∀ c ∈ batch.columns, c.compressedLength = c.payload.length

/-- Full validity of an uncompressed batch: a single logical row, one
column per buffer, every offset buffer delimiting exactly its column's
value. -/
def wellFormedUncompressed (bufs : List (List Nat))
    (batch : UncompressedBatch) : Prop :=
  batch.numRows = 1 ∧ batch.columns.length = bufs.length ∧
  ∀ c ∈ batch.columns, c.offsets = [0, (c.value.length : Int)]

/-! Basic arithmetic facts about page rounding. -/

theorem le_roundUpToPage (x : Nat) : x ≤ roundUpToPage x := by
  unfold roundUpToPage kPageSize
  have h := Nat.div_add_mod (x + 4095) 4096
  have hr : (x + 4095) % 4096 < 4096 := Nat.mod_lt _ (by norm_num)
  omega

theorem roundDownToPage_le (x : Nat) : roundDownToPage x ≤ x := by
  unfold roundDownToPage
  exact Nat.div_mul_le_self x kPageSize

theorem roundDownToPage_mono {x y : Nat} (h : x ≤ y) :
    roundDownToPage x ≤ roundDownToPage y := by
  unfold roundDownToPage
  exact Nat.mul_le_mul_right _ (Nat.div_le_div_right h)

namespace MmapFileStream

/-! Field-level description of a successful read. -/

theorem actualReadSize_le (s : MmapFileStream) (h : s.pos ≤ s.size)
    (n : Int) : s.actualReadSize n ≤ s.size - s.pos := by
  unfold actualReadSize
  omega

theorem actualReadSize_coe (s : MmapFileStream) (h : s.pos ≤ s.size)
    (n : Nat) : s.actualReadSize (n : Int) = min n (s.size - s.pos) := by
  unfold actualReadSize
  omega

theorem advance_willNeed_fields (s : MmapFileStream) (k : Nat) :
    ((s.willNeed k).advance k).data = s.data ∧
    ((s.willNeed k).advance k).pos = s.pos + k ∧
    ((s.willNeed k).advance k).isClosed = s.isClosed ∧
    ((s.willNeed k).advance k).prefetchSize = s.prefetchSize := by
  unfold willNeed advance
  split <;> split <;> simp

theorem read_ok (s : MmapFileStream) (h : s.isClosed = false) (n : Int) :
    s.read n =
      .ok ((s.data.drop s.pos).take (s.actualReadSize n),
        (s.willNeed (s.actualReadSize n)).advance (s.actualReadSize n)) := by
  unfold read
  simp [h]

/-- Cursor invariant after the bookkeeping of one successful read of `k`
bytes, for `k` within bounds. -/
theorem cursorInv_advance_willNeed (s : MmapFileStream) (hinv : cursorInv s)
    (k : Nat) (hk : k ≤ s.size - s.pos) :
    cursorInv ((s.willNeed k).advance k) := by
  obtain ⟨h1, h2, h3⟩ := hinv
  have hup := le_roundUpToPage (s.pos + k)
  have hdn := roundDownToPage_le (s.pos + k)
  unfold cursorInv willNeed advance size at *
  split
  · split <;> simp <;> omega
  · split <;> simp <;> omega

/-- Preservation of the cursor invariant by a single operation. -/
theorem cursorInv_applyOp (s : MmapFileStream) (hinv : cursorInv s)
    (op : Op) : cursorInv (applyOp s op) := by
  cases op with
  | close =>
    obtain ⟨h1, h2, h3⟩ := hinv
    exact ⟨h1, h2, h3⟩
  | read n =>
    by_cases hc : s.isClosed
    · simpa [applyOp, read, hc] using hinv
    · have hc' : s.isClosed = false := by simpa using hc
      rw [applyOp, read_ok s hc' n]
      exact cursorInv_advance_willNeed s hinv _
        (s.actualReadSize_le (le_trans hinv.2.1 hinv.2.2) n)

theorem cursorInv_openStream (data : List Nat) (p : Nat) :
    cursorInv (openStream data p) := by
  refine ⟨Nat.le_refl 0, Nat.le_refl 0, ?_⟩
  simp [openStream, size]

/-- Bytes delivered by sequential reads: starting from any open in-bounds
state, a request schedule whose total covers the remaining bytes delivers
exactly the remaining suffix of the file. -/
theorem readMany_drop (ns : List Nat) :
    ∀ s : MmapFileStream, s.isClosed = false → s.pos ≤ s.size →
      s.size ≤ s.pos + ns.sum →
      (s.readMany (ns.map (fun n : Nat => (n : Int)))).1 =
        s.data.drop s.pos := by
  induction ns with
  | nil =>
    intro s _ _ hcover
    simp only [readMany, List.map_nil]
    exact (List.drop_eq_nil_of_le (by simpa [size] using hcover)).symm
  | cons n ns ih =>
    intro s hclosed hpos hcover
    simp only [List.sum_cons] at hcover
    set k := s.actualReadSize (n : Int) with hkdef
    have hkval : k = min n (s.size - s.pos) := s.actualReadSize_coe hpos n
    have hread := read_ok s hclosed (n : Int)
    obtain ⟨hdata, hp, hcl, -⟩ := advance_willNeed_fields s k
    have hsize : ((s.willNeed k).advance k).size = s.size := by
      simp [size, hdata]
    have hrest := ih ((s.willNeed k).advance k) (by rw [hcl]; exact hclosed)
      (by rw [hp, hsize]; omega) (by rw [hp, hsize]; omega)
    rw [hdata, hp] at hrest
    simp only [List.map_cons, readMany, hread]
    rw [hrest]
    have hdrop : (s.data.drop s.pos).drop k = s.data.drop (s.pos + k) := by
      rw [List.drop_drop, Nat.add_comm]
    rw [← hdrop]
    exact List.take_append_drop k (s.data.drop s.pos)

/-- Preservation of the stored prefetch size by every operation. -/
theorem applyOp_prefetchSize (s : MmapFileStream) (op : Op) :
    (applyOp s op).prefetchSize = s.prefetchSize := by
  cases op with
  | close => rfl
  | read n =>
    by_cases hc : s.isClosed
    · simp [applyOp, read, hc]
    · have hc' : s.isClosed = false := by simpa using hc
      rw [applyOp, read_ok s hc' n]
      exact (advance_willNeed_fields s _).2.2.2

theorem applyOps_prefetchSize (ops : List Op) :
    ∀ s : MmapFileStream, (applyOps s ops).prefetchSize = s.prefetchSize := by
  induction ops with
  | nil => intro s; rfl
  | cons op ops ih =>
    intro s
    calc (applyOps (applyOp s op) ops).prefetchSize
        = (applyOp s op).prefetchSize := ih _
      _ = s.prefetchSize := applyOp_prefetchSize s op

theorem cursorInv_applyOps (ops : List Op) :
    ∀ s : MmapFileStream, cursorInv s → cursorInv (applyOps s ops) := by
  induction ops with
  | nil => intro s h; exact h
  | cons op ops ih => intro s h; exact ih _ (cursorInv_applyOp s h op)

end MmapFileStream

/-- C1: for every file content and every prefetchSize, reading an
MmapFileStream opened on that file sequentially to end-of-stream (any
request schedule whose total covers the file) yields exactly the file's
byte sequence; the prefetch and release bookkeeping never changes the
delivered bytes. -/
theorem mmap_sequential_read_refines_file (data : List Nat)
    (prefetchSize : Nat) (ns : List Nat) (hcover : data.length ≤ ns.sum) :
    ((MmapFileStream.openStream data prefetchSize).readMany
      (ns.map (fun n : Nat => (n : Int)))).1 = data := by
  have h := MmapFileStream.readMany_drop ns
    (MmapFileStream.openStream data prefetchSize) rfl (Nat.zero_le _)
    (by simpa [MmapFileStream.openStream, MmapFileStream.size] using hcover)
  simpa [MmapFileStream.openStream] using h

/-- Witness for C1 at a concrete file and schedule. -/
theorem mmap_sequential_read_refines_file_witness :
    [10, 20, 30, 40, 50].length ≤ [2, 1, 9].sum ∧
    ((MmapFileStream.openStream [10, 20, 30, 40, 50] 100).readMany
      ([2, 1, 9].map (fun n : Nat => (n : Int)))).1 = [10, 20, 30, 40, 50] :=
  ⟨by decide,
    mmap_sequential_read_refines_file [10, 20, 30, 40, 50] 100 [2, 1, 9]
      (by decide)⟩

/-- C2: at every observation point reachable from open by any sequence of
operations, the cursor fields satisfy
`0 ≤ posRetain ≤ pos ≤ posFetch ≤ size`. -/
theorem mmap_cursor_invariant (data : List Nat) (prefetchSize : Nat)
    (ops : List Op) :
    0 ≤ (applyOps (MmapFileStream.openStream data prefetchSize) ops).posRetain ∧
    cursorInv (applyOps (MmapFileStream.openStream data prefetchSize) ops) :=
  ⟨Nat.zero_le _,
    MmapFileStream.cursorInv_applyOps ops _
      (MmapFileStream.cursorInv_openStream data prefetchSize)⟩

/-- C3: for every open in-bounds MmapFileStream and requested count n ≥ 0,
Read(n) succeeds, copies exactly `max 0 (min n (size - pos))` bytes and
returns that count; at end-of-stream it returns 0 bytes without error, and
past end-of-stream it returns fewer bytes than requested. -/
theorem mmap_read_count (s : MmapFileStream) (n : Int) (hn : 0 ≤ n)
    (hopen : s.isClosed = false) (hpos : s.pos ≤ s.size) :
    ∃ out s', s.read n = .ok (out, s') ∧
      (out.length : Int) = max 0 (min n ((s.size : Int) - (s.pos : Int))) ∧
      (s.pos = s.size → out.length = 0) ∧
      ((s.size : Int) - (s.pos : Int) < n → (out.length : Int) < n) := by
  refine ⟨(s.data.drop s.pos).take (s.actualReadSize n),
    (s.willNeed (s.actualReadSize n)).advance (s.actualReadSize n),
    MmapFileStream.read_ok s hopen n, ?_, ?_, ?_⟩ <;>
    · simp only [List.length_take, List.length_drop,
        MmapFileStream.actualReadSize]
      simp only [MmapFileStream.size] at *
      omega

/-- Witness for C3 at a concrete stream and request. -/
theorem mmap_read_count_witness :
    0 ≤ (5 : Int) ∧
    (MmapFileStream.openStream [7, 8, 9] 0).isClosed = false ∧
    (MmapFileStream.openStream [7, 8, 9] 0).pos ≤
      (MmapFileStream.openStream [7, 8, 9] 0).size ∧
    ∃ out s', (MmapFileStream.openStream [7, 8, 9] 0).read 5 = .ok (out, s') ∧
      (out.length : Int) =
        max 0 (min 5 (((MmapFileStream.openStream [7, 8, 9] 0).size : Int) -
          ((MmapFileStream.openStream [7, 8, 9] 0).pos : Int))) ∧
      ((MmapFileStream.openStream [7, 8, 9] 0).pos =
          (MmapFileStream.openStream [7, 8, 9] 0).size → out.length = 0) ∧
      (((MmapFileStream.openStream [7, 8, 9] 0).size : Int) -
          ((MmapFileStream.openStream [7, 8, 9] 0).pos : Int) < 5 →
        (out.length : Int) < 5) :=
  ⟨by decide, rfl, by decide,
    mmap_read_count (MmapFileStream.openStream [7, 8, 9] 0) 5 (by decide)
      rfl (by decide)⟩

/-- C4: Close is idempotent (a second Close changes nothing), closed()
reports true after Close, and every Read after Close fails with an
invalid-state error. -/
theorem mmap_close_idempotent_read_fails (s : MmapFileStream) (n : Int) :
    s.close.close = s.close ∧ s.close.closed = true ∧
    s.close.read n = .error .invalidState := by
  refine ⟨rfl, rfl, ?_⟩
  simp [MmapFileStream.read, MmapFileStream.close]

/-- C10: immediately after open, the cursor state is
`pos = posFetch = posRetain = 0` and Tell returns 0; the stored prefetch
size is never changed by any later operation. -/
theorem mmap_open_initial_state (data : List Nat) (p : Nat) (ops : List Op) :
    (MmapFileStream.openStream data p).pos = 0 ∧
    (MmapFileStream.openStream data p).posFetch = 0 ∧
    (MmapFileStream.openStream data p).posRetain = 0 ∧
    (MmapFileStream.openStream data p).tell = 0 ∧
    (applyOps (MmapFileStream.openStream data p) ops).prefetchSize =
      (MmapFileStream.openStream data p).prefetchSize :=
  ⟨rfl, rfl, rfl, rfl, MmapFileStream.applyOps_prefetchSize ops _⟩

/-! Encoder lemmas. -/

theorem mapAll_ok_forall₂ (f : α → Except GError β) :
    ∀ (xs : List α) (ys : List β), mapAll f xs = .ok ys →
      List.Forall₂ (fun x y => f x = .ok y) xs ys := by
  intro xs
  induction xs with
  | nil =>
    intro ys h
    cases h
    exact List.Forall₂.nil
  | cons a as ih =>
    intro ys h
    unfold mapAll at h
    cases hfa : f a with
    | error e => simp [hfa] at h
    | ok b =>
      cases hrest : mapAll f as with
      | error e => simp [hfa, hrest] at h
      | ok bs =>
        simp only [hfa, hrest] at h
        cases h
        exact List.Forall₂.cons hfa (ih bs hrest)

theorem forall₂_mem_right {R : α → β → Prop} :
    ∀ {xs : List α} {ys : List β}, List.Forall₂ R xs ys →
      ∀ y ∈ ys, ∃ x, R x y := by
  intro xs ys h
  induction h with
  | nil =>
    intro y hy
    simp at hy
  | cons hab hrest ih =>
    intro y hy
    rcases List.mem_cons.mp hy with h1 | h2
    · exact ⟨_, h1 ▸ hab⟩
    · exact ih y h2

/-- Pointwise behaviour of the threshold policy on one buffer group. -/
theorem compressBuffer_ok_spec (codec : Codec) (thr : Int) (g : List Nat)
    (c : CompressedColumn) (h : compressBuffer codec thr g = .ok c) :
    c.originalLength = g.length ∧ c.compressedLength = c.payload.length ∧
    (thr ≤ (g.length : Int) → codec.compress g = .ok c.payload ∧
      c.payload.length ≤ codec.maxCompressedLen g.length) ∧
    ((g.length : Int) < thr → c.payload = g ∧
      c.compressedLength = c.originalLength) := by
  unfold compressBuffer at h
  split at h
  case isTrue hthr =>
    cases hc : codec.compress g with
    | error e => simp [hc] at h
    | ok out =>
      simp only [hc] at h
      cases h
      exact ⟨rfl, rfl, fun _ => ⟨rfl, codec.compress_le g out hc⟩,
        fun hlt => absurd hthr (by omega)⟩
  case isFalse hthr =>
    cases h
    exact ⟨rfl, rfl, fun hle => absurd hle hthr, fun _ => ⟨rfl, rfl⟩⟩

/-- C5: in makeCompressedRecordBatch, every buffer group at or above
bufferCompressThreshold is compressed (the destination bound given by the
codec's worst case never being exceeded) with
`(compressedLength, originalLength)` recorded; every group below the
threshold is stored verbatim with `compressedLength == originalLength` as
the not-compressed sentinel. -/
theorem makeCompressed_records_lengths (numRows : Nat)
    (bufs : List (List Nat)) (codec : Codec) (thr : Int)
    (mode : CompressionMode) (batch : CompressedBatch)
    (h : makeCompressedRecordBatch numRows bufs codec thr mode = .ok batch) :
    List.Forall₂ (fun g c =>
      c.originalLength = g.length ∧ c.compressedLength = c.payload.length ∧
      (thr ≤ (g.length : Int) → codec.compress g = .ok c.payload ∧
        c.payload.length ≤ codec.maxCompressedLen g.length) ∧
      ((g.length : Int) < thr → c.payload = g ∧
        c.compressedLength = c.originalLength))
      (groups mode bufs) batch.columns := by
  unfold makeCompressedRecordBatch at h
  cases hm : mapAll (compressBuffer codec thr) (groups mode bufs) with
  | error e => simp [hm] at h
  | ok cols =>
    simp only [hm] at h
    cases h
    exact (mapAll_ok_forall₂ _ _ _ hm).imp
      (fun g c hx => compressBuffer_ok_spec codec thr g c hx)

/-- Witness for C5 at a concrete codec, threshold and buffer list. -/
theorem makeCompressed_records_lengths_witness :
    List.Forall₂ (fun (g : List Nat) (c : CompressedColumn) =>
      c.originalLength = g.length ∧ c.compressedLength = c.payload.length ∧
      ((2 : Int) ≤ (g.length : Int) →
        identityCodec.compress g = .ok c.payload ∧
        c.payload.length ≤ identityCodec.maxCompressedLen g.length) ∧
      ((g.length : Int) < 2 → c.payload = g ∧
        c.compressedLength = c.originalLength))
      (groups CompressionMode.buffer [[1, 2, 3], [9]])
      (CompressedBatch.mk 4 [⟨[1, 2, 3], 3, 3⟩, ⟨[9], 1, 1⟩]).columns :=
  makeCompressed_records_lengths 4 [[1, 2, 3], [9]] identityCodec 2
    CompressionMode.buffer ⟨4, [⟨[1, 2, 3], 3, 3⟩, ⟨[9], 1, 1⟩]⟩ rfl

/-- C6: the size oracle's bound is an upper bound on the total output the
codec actually produces for the buffers, so a destination preallocated to
it is never overflowed. -/
theorem getMaxCompressedBufferSize_ge (codec : Codec) :
    ∀ bufs outs : List (List Nat), mapAll codec.compress bufs = .ok outs →
      (outs.map List.length).sum ≤ getMaxCompressedBufferSize bufs codec := by
  intro bufs
  induction bufs with
  | nil =>
    intro outs h
    cases h
    simp [getMaxCompressedBufferSize]
  | cons b bs ih =>
    intro outs h
    unfold mapAll at h
    cases hfb : codec.compress b with
    | error e => simp [hfb] at h
    | ok o =>
      cases hrest : mapAll codec.compress bs with
      | error e => simp [hfb, hrest] at h
      | ok os =>
        simp only [hfb, hrest] at h
        cases h
        have h1 := codec.compress_le b o hfb
        have h2 := ih os hrest
        simp only [getMaxCompressedBufferSize, List.map_cons,
          List.sum_cons] at h2 ⊢
        omega

/-- Witness for C6 at a concrete codec and buffer list. -/
theorem getMaxCompressedBufferSize_ge_witness :
    mapAll identityCodec.compress [[1, 2], [3, 4, 5]] =
      .ok [[1, 2], [3, 4, 5]] ∧
    (([[1, 2], [3, 4, 5]] : List (List Nat)).map List.length).sum ≤
      getMaxCompressedBufferSize [[1, 2], [3, 4, 5]] identityCodec :=
  ⟨rfl, getMaxCompressedBufferSize_ge identityCodec [[1, 2], [3, 4, 5]]
    [[1, 2], [3, 4, 5]] rfl⟩

/-- C7: with matching buffer/schema cardinality, makeUncompressedRecordBatch
succeeds with a single-logical-row batch holding one large-binary column
per input buffer, offset buffers of the 64-bit-class offset type (8-byte
IpcOffsetBufferType) and embedded per-field lengths of the 32-bit length
type (4-byte BinaryArrayLengthBufferType). -/
theorem makeUncompressed_shape (numRows : Nat) (bufs : List (List Nat))
    (schemaCols : Nat) (h : bufs.length = schemaCols) :
    ∃ batch, makeUncompressedRecordBatch numRows bufs schemaCols =
        .ok batch ∧
      batch.numRows = 1 ∧ batch.columns.length = bufs.length ∧
      batch.columns = bufs.map (fun b => ⟨b, [0, (b.length : Int)]⟩) ∧
      kSizeOfIpcOffsetBuffer = 8 ∧ kSizeOfBinaryArrayLengthBuffer = 4 := by
  refine ⟨⟨1, bufs.map (fun b => ⟨b, [0, (b.length : Int)]⟩)⟩, ?_, rfl,
    by simp, rfl, rfl, rfl⟩
  unfold makeUncompressedRecordBatch
  simp [h]

/-- Witness for C7 at a concrete buffer list and schema. -/
theorem makeUncompressed_shape_witness :
    [[1], [2, 3]].length = 2 ∧
    ∃ batch, makeUncompressedRecordBatch 7 [[1], [2, 3]] 2 = .ok batch ∧
      batch.numRows = 1 ∧ batch.columns.length = [[1], [2, 3]].length ∧
      batch.columns =
        [[1], [2, 3]].map
          (fun b : List Nat => ⟨b, [0, (b.length : Int)]⟩) ∧
      kSizeOfIpcOffsetBuffer = 8 ∧ kSizeOfBinaryArrayLengthBuffer = 4 :=
  ⟨by decide, makeUncompressed_shape 7 [[1], [2, 3]] 2 (by decide)⟩

/-- C8: batch construction is all-or-nothing: each encoder either returns
an error or a fully valid batch; every successfully returned batch is
well formed, and no third outcome exists. -/
theorem batch_construction_atomic (numRows : Nat) (bufs : List (List Nat))
    (codec : Codec) (thr : Int) (mode : CompressionMode)
    (schemaCols : Nat) :
    (∀ batch,
      makeCompressedRecordBatch numRows bufs codec thr mode = .ok batch →
        wellFormedCompressed mode bufs batch) ∧
    ((∃ b, makeCompressedRecordBatch numRows bufs codec thr mode = .ok b) ∨
      (∃ e,
        makeCompressedRecordBatch numRows bufs codec thr mode =
          .error e)) ∧
    (∀ batch, makeUncompressedRecordBatch numRows bufs schemaCols =
        .ok batch → wellFormedUncompressed bufs batch) ∧
    ((∃ b, makeUncompressedRecordBatch numRows bufs schemaCols = .ok b) ∨
      (∃ e, makeUncompressedRecordBatch numRows bufs schemaCols =
        .error e)) := by
  refine ⟨?_, ?_, ?_, ?_⟩
  · intro batch h
    unfold makeCompressedRecordBatch at h
    cases hm : mapAll (compressBuffer codec thr) (groups mode bufs) with
    | error e => simp [hm] at h
    | ok cols =>
      simp only [hm] at h
      cases h
      have hf := mapAll_ok_forall₂ _ _ _ hm
      refine ⟨hf.length_eq.symm, ?_⟩
      intro c hc
      obtain ⟨g, hg⟩ := forall₂_mem_right hf c hc
      exact (compressBuffer_ok_spec codec thr g c hg).2.1
  · cases hm : makeCompressedRecordBatch numRows bufs codec thr mode with
    | ok b => exact Or.inl ⟨b, rfl⟩
    | error e => exact Or.inr ⟨e, rfl⟩
  · intro batch h
    unfold makeUncompressedRecordBatch at h
    split at h
    · cases h
      refine ⟨rfl, by simp, ?_⟩
      intro c hc
      obtain ⟨b, -, rfl⟩ := List.mem_map.mp hc
      rfl
    · simp at h
  · cases hm : makeUncompressedRecordBatch numRows bufs schemaCols with
    | ok b => exact Or.inl ⟨b, rfl⟩
    | error e => exact Or.inr ⟨e, rfl⟩

/-- Witness for C8: both encoders applied at concrete inputs yield well
formed batches. -/
theorem batch_construction_atomic_witness :
    wellFormedCompressed CompressionMode.buffer [[1, 2, 3], [9]]
      ⟨4, [⟨[1, 2, 3], 3, 3⟩, ⟨[9], 1, 1⟩]⟩ ∧
    wellFormedUncompressed [[1, 2, 3], [9]]
      ⟨1, [⟨[1, 2, 3], [0, 3]⟩, ⟨[9], [0, 1]⟩]⟩ :=
  ⟨(batch_construction_atomic 4 [[1, 2, 3], [9]] identityCodec 2
      CompressionMode.buffer 2).1 _ rfl,
    (batch_construction_atomic 4 [[1, 2, 3], [9]] identityCodec 2
      CompressionMode.buffer 2).2.2.1 _ rfl⟩

end Gluten
